import Mathlib

/-!
Verification development for the pkgsite module ingestion pipeline.

The central code under study is the fetch pipeline of `internal/fetch`
(`FetchModule`, `fetchModule`, `getGoModPath`, `processZipFile`,
`processGoModFile`, `extractDeprecatedComment`), embedded here as pure
Lean functions over an explicit environment of collaborator behaviors
(proxy info/zip/mod lookups, the load shedder, the license detector and
the package extractor).  Components of the repository that are only
referenced (not defined) in the sources at hand — the package extractor
internals, the unit assembler, the status-code mapping, the worker's
store update and the single-flight queue — are modelled from the spec,
as marked in the corresponding doc comments.
-/

namespace Pkgsite

/-- Error taxonomy of the fetch pipeline.  The sentinels `notFound`,
`excluded`, `alternativeModule`, `badModule`, `moduleTooLarge`,
`sheddingLoad`, `hasIncompletePackages` mirror the `derrors` sentinels used
by `internal/fetch`; `alternativeModule` carries the declared go.mod path
exactly as the wrapped error message does. -/
inductive FetchErr where
  | notFound
  | excluded
  | invalidArgument
  | alternativeModule (goModPath : String)
  | badModule
  | moduleTooLarge
  | sheddingLoad
  | deadlineExceeded
  | hasIncompletePackages
  | internalErr
deriving DecidableEq, Repr

/-- Modelled from the spec: `derrors.ToStatus` is not among the sources;
per spec sections 3 and 7 every error class maps to a distinct non-zero
externally visible status code family (200 success, 2xx-with-degradation
for incomplete packages, 4xx for not-found / excluded / bad module /
alternative module, 503 for shedding, 408 for deadline, 5xx internal).
The concrete numeric values of the 4xx-class codes are policy constants
not fixed by the spec. -/
def toStatus : FetchErr → Nat
  | .notFound => 404
  | .excluded => 403
  | .invalidArgument => 400
  | .alternativeModule _ => 491
  | .badModule => 490
  | .moduleTooLarge => 492
  | .sheddingLoad => 503
  | .deadlineExceeded => 408
  | .hasIncompletePackages => 290
  | .internalErr => 500

/-- The degraded-success code recorded when some package state is non-200
(`hasIncompletePackagesCode` in the worker sources). -/
def hasIncompletePackagesCode : Nat := toStatus .hasIncompletePackages

/-- One mebibyte, as in `zipSize/mib` in `fetchModule`. -/
def mib : Int := 1024 * 1024

/-- Modelled from the spec: the absolute hard cap on module zip size
(`maxModuleZipSize`); its definition is not among the sources and the spec
calls it a policy constant, so the exact value is arbitrary here. -/
def maxModuleZipSize : Int := 2147483648

/-- Modelled from the spec: the per-file size ceiling (`fetch.MaxFileSize`);
its definition is not among the sources and the spec calls it a bounded,
configurable policy constant. -/
def MaxFileSize : Nat := 30 * 1000 * 1000

/-- Go's `uint64(z)` conversion applied to an `int64` value, as in
`zipLoadShedder.shouldShed(uint64(zipSize))`. -/
def goUInt64 (z : Int) : Nat := (z % (2 ^ 64)).toNat

/-- The standard-library pseudo-module path (`stdlib.ModulePath`). -/
def stdlibModulePath : String := "std"

/-! ## Strings: the Go helpers used by `extractDeprecatedComment` -/

/-- Whitespace as recognized by Go's `unicode.IsSpace` on the Latin-1
range: space, tab, newline, vertical tab, form feed, carriage return,
next-line and no-break space.  (Code points above U+00FF from the Unicode
space category are not modelled; none appear in this development.) -/
def isGoSpace (c : Char) : Bool :=
  c == ' ' || c == '\t' || c == '\n' || c == '\x0b' || c == '\x0c' ||
  c == '\r' || c == '\x85' || c == '\xa0'

/-- Go's `strings.TrimSpace`: remove leading and trailing whitespace. -/
def goTrimSpace (s : String) : String :=
  String.mk (((s.toList.dropWhile isGoSpace).reverse.dropWhile isGoSpace).reverse)

/-- Whether one character list is a prefix of another. -/
def listIsPrefixOfChars : List Char → List Char → Bool
  | [], _ => true
  | _ :: _, [] => false
  | a :: as, b :: bs => a == b && listIsPrefixOfChars as bs

/-- Go's `strings.HasPrefix s pre` (byte prefix; equal to character
prefix since the markers used here are ASCII). -/
def goHasPrefix (s pre : String) : Bool := listIsPrefixOfChars pre.data s.data

/-- Go's `s[n:]` byte slicing (equal to character dropping for the ASCII
marker lengths used here). -/
def goDrop (s : String) (n : Nat) : String := String.mk (s.data.drop n)

/-- Go's `strings.TrimPrefix s pre`: drop `pre` from the front of `s`
when present, otherwise return `s` unchanged. -/
def trimLeading (s pre : String) : String :=
  if goHasPrefix s pre then goDrop s pre.length else s

/-! ## The go.mod file model and `extractDeprecatedComment`

`golang.org/x/mod/modfile` is an external collaborator; its parse result
is modelled by the structures below: a parsed file optionally holds a
`module` directive with its declared path and the line comments attached
before (`Syntax.Before`) and after (`Syntax.Suffix`) the directive. -/

/-- A line comment attached to a modfile syntax node; `token` is the full
comment token including the leading `//`. -/
structure ModComment where
  token : String
deriving DecidableEq, Repr

/-- The `module` directive of a parsed go.mod file. -/
structure ModFileModule where
  path : String
  before : List ModComment
  suffix : List ModComment
deriving DecidableEq, Repr

/-- A parsed go.mod file (`modfile.File`): `module?` is `none` when the
file has no module directive. -/
structure ModFile where
  module? : Option ModFileModule
deriving DecidableEq, Repr

/-- The fixed comment marker `"Deprecated:"` from `extractDeprecatedComment`. -/
def deprecatedMarker : String := "Deprecated:"

/-- The loop body of `extractDeprecatedComment`: scan the attached
comments in order; on the first whose text (after stripping the leading
`//` and surrounding whitespace) starts with `Deprecated:`, return `true`
with the trimmed text after the marker. -/
def findDeprecatedComment : List ModComment → Bool × String
  | [] => (false, "")
  | c :: rest =>
    let text := goTrimSpace (trimLeading c.token "//")
    if goHasPrefix text deprecatedMarker then
      (true, goTrimSpace (goDrop text deprecatedMarker.length))
    else
      findDeprecatedComment rest

/-- `extractDeprecatedComment` from `internal/fetch`: look for
"Deprecated" comments in the line comments around the module declaration;
return `(false, "")` when there is no module directive or no such comment. -/
def extractDeprecatedComment (mf : ModFile) : Bool × String :=
  match mf.module? with
  | none => (false, "")
  | some m => findDeprecatedComment (m.before ++ m.suffix)

/-! ## Paths and the Unit Assembler

`unitPaths` and `moduleUnits` are referenced by `TestDirectoryPaths` and
`processZipFile` but their definitions are not among the sources; they are
modelled from the spec (section 4.5): one unit per package import path,
plus one for every distinct ancestor directory including the module root,
with standard-library paths used directly (no module-path prefix join).
Slash-separated paths are handled at the character-list level. -/

/-- Split a character list on `/` into its path components
(like Go's `strings.Split(s, "/")`; the empty list yields one empty
component). -/
def splitComps : List Char → List (List Char)
  | [] => [[]]
  | c :: rest =>
    if c = '/' then [] :: splitComps rest
    else
      match splitComps rest with
      | [] => [[c]]
      | h :: t => (c :: h) :: t

/-- Join path components with `/` (inverse of `splitComps`). -/
def joinComps : List (List Char) → List Char
  | [] => []
  | [c] => c
  | c :: rest => c ++ '/' :: joinComps rest

/-- Components of a path string. -/
def splitPath (p : String) : List (List Char) := splitComps p.data

/-- Path string from components. -/
def joinPath (cs : List (List Char)) : String := String.mk (joinComps cs)

/-- Modelled from the spec: which derived paths count as units of the
module — for the standard library every non-empty ancestor path, otherwise
only paths strictly below the module root (strictly longer than the module
path). -/
def unitFilter (modulePath q : String) : Bool :=
  if modulePath == stdlibModulePath then q != "" else q.length > modulePath.length

/-- Modelled from the spec: the ancestors-or-self of one package path that
become units — the joins of every non-empty component prefix of the path,
restricted by `unitFilter`. -/
def candidateUnitPaths (modulePath p : String) : List String :=
  ((List.range (splitPath p).length).map
    (fun n => joinPath ((splitPath p).take (n + 1)))).filter (unitFilter modulePath)

/-- An extracted package; only the import path is relevant to the unit
assembler (`goPackage` in the sources carries name, docs and licenses
besides). -/
structure GoPackage where
  path : String
deriving DecidableEq, Repr

/-- Modelled from the spec: `unitPaths(modulePath, packages)` — the module
root plus, for each package, every ancestor directory and the package path
itself, duplicates removed. -/
def unitPaths (modulePath : String) (packages : List GoPackage) : List String :=
  (modulePath :: packages.flatMap (fun p => candidateUnitPaths modulePath p.path)).dedup

/-- A stored directory-tree node: a unit is keyed by its full path and may
carry a package payload. -/
structure ModUnit where
  path : String
  isPackage : Bool
deriving DecidableEq, Repr

/-- Modelled from the spec: `moduleUnits` converts extracted packages into
the unit set — one unit per path from `unitPaths`, carrying a package
payload exactly when the path is a package import path.  (Readme and
license association, which the spec also assigns here, is not needed by
any claim and is not modelled.) -/
def moduleUnits (modulePath version : String) (packages : List GoPackage) : List ModUnit :=
  (unitPaths modulePath packages).map
    (fun q => { path := q, isPackage := packages.any (fun p => p.path == q) })

/-! ## Package extraction (Content Extractor) -/

/-- One file of a package directory, with its uncompressed size. -/
structure FileInfo where
  name : String
  size : Nat
deriving DecidableEq, Repr

/-- One candidate package directory of the archive: the import path it
would produce and the files belonging to it after build-context
classification. -/
structure PkgDir where
  path : String
  files : List FileInfo
deriving DecidableEq, Repr

/-- The errors of `extractPackagesFromZip` that `processZipFile` inspects:
`ErrModuleContainsNoPackages` and `errMalformedZip`. -/
inductive ExtractErr where
  | noPackages
  | malformedZip
deriving DecidableEq, Repr

/-- Modelled from the spec: the status a directory's package extraction
records — 600 ("too large") when some file exceeds the per-file ceiling
`MaxFileSize` (the 600 value is fixed by the worker tests), 200 otherwise. -/
def dirStatus (d : PkgDir) : Nat :=
  if d.files.any (fun f => f.size > MaxFileSize) then 600 else 200

/-- A per-package extraction outcome (`internal.PackageVersionState`). -/
structure PackageVersionState where
  packagePath : String
  modulePath : String
  version : String
  status : Nat
deriving DecidableEq, Repr

/-- Modelled from the spec: `extractPackagesFromZip` — its definition is
not among the sources.  Per spec section 4.3: every attempted directory
gets a `PackageVersionState`; directories with an oversized file are
marked 600 and excluded from the package list; a malformed archive fails
with `errMalformedZip`; an empty resulting package set fails with
`ErrModuleContainsNoPackages`. -/
def extractPackagesFromZip (modulePath version : String) (dirs : List PkgDir)
    (malformed : Bool) : Except ExtractErr (List GoPackage × List PackageVersionState) :=
  if malformed then .error .malformedZip
  else
    let pvs := dirs.map (fun d =>
      { packagePath := d.path, modulePath := modulePath, version := version,
        status := dirStatus d })
    let pkgs := (dirs.filter (fun d => dirStatus d == 200)).map
      (fun d => ({ path := d.path } : GoPackage))
    if pkgs.isEmpty then .error .noPackages else .ok (pkgs, pvs)

/-! ## The fetch pipeline (`internal/fetch`) -/

/-- The assembled module (`internal.Module` restricted to the fields the
pipeline writes: identity, redistributability, go.mod presence,
deprecation and the unit set). -/
structure Module where
  modulePath : String
  version : String
  commitTime : Nat
  isRedistributable : Bool
  hasGoMod : Bool
  deprecated : Bool
  deprecationComment : String
  units : List ModUnit
deriving DecidableEq, Repr

/-- Parse failure of `modfile.Parse` inside `processGoModFile`. -/
inductive ModParseErr where
  | parseFailed
deriving DecidableEq, Repr

/-- The go.mod contents obtained from the proxy, abstracted to the two
collaborator outputs the pipeline consumes: what `modfile.ModulePath`
returns on the bytes, and what `modfile.Parse` returns (`none` = parse
error). -/
structure GoModSrc where
  declaredPath : String
  parsed : Option ModFile
deriving DecidableEq, Repr

/-- `processGoModFile` from `internal/fetch`: parse the go.mod contents
and populate the module's deprecation fields from
`extractDeprecatedComment`. -/
def processGoModFile (src : GoModSrc) (mod : Module) : Except ModParseErr Module :=
  match src.parsed with
  | none => .error .parseFailed
  | some mf =>
    let dc := extractDeprecatedComment mf
    .ok { mod with deprecated := dc.1, deprecationComment := dc.2 }

/-- The module zip, abstracted to its entry names (only `hasGoModFile`
reads it directly; package extraction is modelled separately). -/
structure ZipArchive where
  files : List String
deriving DecidableEq, Repr

/-- `moduleVersionDir` from `internal/fetch`: the content subdirectory
`modulePath@version` of the zip. -/
def moduleVersionDir (modulePath version : String) : String :=
  modulePath ++ "@" ++ version

/-- `hasGoModFile` from `internal/fetch`: whether the zip contains
`modulePath@version/go.mod`. -/
def hasGoModFile (zr : ZipArchive) (m v : String) : Bool :=
  zr.files.any (fun f => f == moduleVersionDir m v ++ "/go.mod")

/-- The proxy `.info` result (`proxy.VersionInfo`): resolved version and
commit time. -/
structure VersionInfo where
  version : String
  time : Nat
deriving DecidableEq, Repr

/-- The admission shedder (`zipLoadShedder`): `shouldShed` answers whether
to shed for an estimated size; the release function it hands back is
tracked through `DeferKind` below. -/
structure Shedder where
  shouldShed : Nat → Bool

/-- What `FetchResult.Defer` holds: the initial no-op, or the release
function handed back by the shedder's `shouldShed` (the only assignment to
`fr.Defer` in the pipeline). -/
inductive DeferKind where
  | noopDefer
  | shedderRelease
deriving DecidableEq, Repr

/-- `fetch.FetchResult` restricted to the fields the claims mention. -/
structure FetchResult where
  modulePath : String
  requestedVersion : String
  resolvedVersion : String
  hasGoMod : Bool
  goModPath : String
  status : Nat
  error? : Option FetchErr
  deferK : DeferKind
  module? : Option Module
  packageVersionStates : List PackageVersionState
deriving Repr

/-- Observed collaborator invocations of one fetch run:
whether the shedder was consulted (`shouldShed` called), whether the
archive download was started, and how many times the content extractor
(`processZipFile`) ran. -/
structure Trace where
  shedderConsulted : Bool
  zipFetched : Bool
  extractorCalls : Nat
deriving DecidableEq, Repr

/-- The environment of one fetch: the behavior of every collaborator the
pipeline consults, in the order the pipeline consults them. -/
structure FetchEnv where
  /-- `GetInfo` (proxy `.info` or `stdlib.ZipInfo`). -/
  infoResult : Except FetchErr VersionInfo
  /-- The configured `zipLoadShedder`, if any. -/
  shedder : Option Shedder
  /-- `getZipSize` (proxy `.zip` size or `stdlib.EstimatedZipSize`). -/
  zipSizeResult : Except FetchErr Int
  /-- `proxyClient.Zip`. -/
  proxyZipResult : Except FetchErr ZipArchive
  /-- `stdlib.Zip`: archive, resolved version, commit time. -/
  stdlibZipResult : Except FetchErr (ZipArchive × String × Nat)
  /-- `proxyClient.Mod`, abstracted through `GoModSrc`. -/
  modResult : Except FetchErr GoModSrc
  /-- Whether `extractReadmesFromZip` succeeds. -/
  readmesOk : Bool
  /-- The candidate package directories the archive walk produces. -/
  dirs : List PkgDir
  /-- Whether the archive is malformed (`errMalformedZip`). -/
  malformedZip : Bool
  /-- The license detector's `ModuleIsRedistributable` verdict. -/
  moduleRedistributable : Bool

/-- `getGoModPath` from `internal/fetch`: returns the declared module path
from go.mod and the file contents.  For the standard library it returns
the stdlib path with no contents; a missing path is a `BadModule` error; a
declared path different from the requested one is an `AlternativeModule`
error that still carries the declared path (and the contents). -/
def getGoModPath (modulePath : String) (modResult : Except FetchErr GoModSrc) :
    String × Option GoModSrc × Option FetchErr :=
  if modulePath == stdlibModulePath then (stdlibModulePath, none, none)
  else
    match modResult with
    | .error e => ("", none, some e)
    | .ok src =>
      let goModPath := src.declaredPath
      if goModPath == "" then ("", none, some .badModule)
      else if goModPath != modulePath then
        (goModPath, some src, some (.alternativeModule goModPath))
      else (goModPath, some src, none)

/-- `processZipFile` from `internal/fetch`: extract readmes (failure is a
plain error, surfacing as an internal status), run the license detector
and the package extractor, escalate `ErrModuleContainsNoPackages` and
`errMalformedZip` to `BadModule`, and assemble the module with its units.
`HasGoMod` is populated by the caller. -/
def processZipFile (env : FetchEnv) (modulePath resolvedVersion : String)
    (commitTime : Nat) : Except FetchErr (Module × List PackageVersionState) :=
  if !env.readmesOk then .error .internalErr
  else
    match extractPackagesFromZip modulePath resolvedVersion env.dirs env.malformedZip with
    | .error _ => .error .badModule
    | .ok (packages, pvs) =>
      .ok ({ modulePath := modulePath, version := resolvedVersion,
             commitTime := commitTime,
             isRedistributable := env.moduleRedistributable,
             hasGoMod := false, deprecated := false, deprecationComment := "",
             units := moduleUnits modulePath resolvedVersion packages }, pvs)

/-- The tail of `fetchModule` after the per-package state loop: store the
assembled module and states on the result and degrade the status to the
incomplete-packages code when any state is non-200. -/
def fetchModuleFinish (fr : FetchResult) (mod : Module)
    (pvs : List PackageVersionState) (tr : Trace) :
    FetchResult × Option FetchErr × Trace :=
  let fr := { fr with module? := some mod, packageVersionStates := pvs }
  let fr := if pvs.any (fun s => s.status != 200)
            then { fr with status := toStatus .hasIncompletePackages } else fr
  (fr, none, tr)

/-- The part of `fetchModule` after admission control: download the zip
(standard-library or proxy backend), record `HasGoMod`, read the go.mod
path, extract the content and process the go.mod file (any parse failure
escalating to `BadModule`). -/
def fetchModuleRest (env : FetchEnv) (fr : FetchResult) (commitTime : Nat)
    (consulted : Bool) : FetchResult × Option FetchErr × Trace :=
  let zipStep : Except FetchErr (ZipArchive × String × Nat) :=
    if fr.modulePath == stdlibModulePath then
      match env.stdlibZipResult with
      | .error e => .error e
      | .ok (zr, rv, ct) => .ok (zr, rv, ct)
    else
      match env.proxyZipResult with
      | .error e => .error e
      | .ok zr => .ok (zr, fr.resolvedVersion, commitTime)
  match zipStep with
  | .error e => (fr, some e, ⟨consulted, true, 0⟩)
  | .ok (zr, rv, commitTime) =>
    let fr := { fr with resolvedVersion := rv }
    let hgm := if fr.modulePath == stdlibModulePath then true
               else hasGoModFile zr fr.modulePath fr.resolvedVersion
    let fr := { fr with hasGoMod := hgm }
    match getGoModPath fr.modulePath env.modResult with
    | (gmp, _, some e) => ({ fr with goModPath := gmp }, some e, ⟨consulted, true, 0⟩)
    | (gmp, goModBytes, none) =>
      let fr := { fr with goModPath := gmp }
      match processZipFile env fr.modulePath fr.resolvedVersion commitTime with
      | .error e => (fr, some e, ⟨consulted, true, 1⟩)
      | .ok (mod, pvs) =>
        let mod := { mod with hasGoMod := fr.hasGoMod }
        match goModBytes with
        | some src =>
          match processGoModFile src mod with
          | .error _ => (fr, some .badModule, ⟨consulted, true, 1⟩)
          | .ok mod => fetchModuleFinish fr mod pvs ⟨consulted, true, 1⟩
        | none => fetchModuleFinish fr mod pvs ⟨consulted, true, 1⟩

/-- `fetchModule` from `internal/fetch`: resolve the version, run
admission control (consult the shedder with the zip size, recording its
release function on `fr.Defer`; shed, or reject sizes over the hard cap —
both checks happen only when a shedder is configured), then proceed with
download and extraction. -/
def fetchModule (env : FetchEnv) (fr : FetchResult) :
    FetchResult × Option FetchErr × Trace :=
  match env.infoResult with
  | .error e => (fr, some e, ⟨false, false, 0⟩)
  | .ok info =>
    let fr := { fr with resolvedVersion := info.version }
    match env.shedder with
    | some sh =>
      match env.zipSizeResult with
      | .error e => (fr, some e, ⟨false, false, 0⟩)
      | .ok zipSize =>
        let shed := sh.shouldShed (goUInt64 zipSize)
        let fr := { fr with deferK := .shedderRelease }
        if shed then (fr, some .sheddingLoad, ⟨true, false, 0⟩)
        else if zipSize > maxModuleZipSize then
          (fr, some .moduleTooLarge, ⟨true, false, 0⟩)
        else fetchModuleRest env fr info.time true
    | none => fetchModuleRest env fr info.time false

/-- The zero `FetchResult` that `FetchModule` builds before calling
`fetchModule`: `Defer` is initialized to the no-op. -/
def initialFetchResult (modulePath requestedVersion : String) : FetchResult :=
  { modulePath := modulePath, requestedVersion := requestedVersion,
    resolvedVersion := "", hasGoMod := false, goModPath := "", status := 0,
    error? := none, deferK := .noopDefer, module? := none,
    packageVersionStates := [] }

/-- `FetchModule` from `internal/fetch`: run `fetchModule`, record its
error, map a non-nil error to its status code, and default a zero status
to 200. -/
def FetchModule (env : FetchEnv) (modulePath requestedVersion : String) :
    FetchResult × Trace :=
  let r := fetchModule env (initialFetchResult modulePath requestedVersion)
  let fr := r.1
  let fr := { fr with error? := r.2.1 }
  let fr := match r.2.1 with
    | some e => { fr with status := toStatus e }
    | none => fr
  let fr := if fr.status == 0 then { fr with status := 200 } else fr
  (fr, r.2.2)

/-- How many times the shedder's release function runs over the whole
fetch, under the documented caller contract that `fr.Defer()` is deferred
exactly once immediately after `FetchModule` returns: once when `Defer`
holds the shedder's release function, zero times when it still holds the
initial no-op (`fetchModule` itself never invokes the function). -/
def releaseInvocations (fr : FetchResult) : Nat :=
  match fr.deferK with
  | .shedderRelease => 1
  | .noopDefer => 0

/-! ## The worker store update (`FetchAndUpdateState`)

The worker implementation is not among the sources (only its tests are);
the store interaction is modelled from the spec (sections 4.6, 6 and the
testable properties): the store upserts with atomic replace semantics
keyed by module and version, the module version state records the status
and the mismatched go.mod path, a successful or degraded fetch commits the
assembled module, a not-found fetch deletes it, and every other failure
commits nothing. -/

/-- One row of `module_version_states`: the diagnostic record the worker
persists for every attempt. -/
structure ModuleVersionState where
  modulePath : String
  version : String
  status : Nat
  goModPath : String
deriving DecidableEq, Repr

/-- The external store, reduced to the two tables the claims inspect. -/
structure Store where
  modules : List Module
  states : List ModuleVersionState
deriving Repr

/-- Modelled from the spec: `upsertModule` — atomic replace keyed by
(modulePath, version). -/
def upsertModule (s : Store) (m : Module) : Store :=
  let rest := s.modules.filter
    (fun m2 => !(m2.modulePath == m.modulePath && m2.version == m.version))
  { s with modules := m :: rest }

/-- Modelled from the spec: `deleteModule`. -/
def deleteModuleFromStore (s : Store) (mp v : String) : Store :=
  let rest := s.modules.filter (fun m2 => !(m2.modulePath == mp && m2.version == v))
  { s with modules := rest }

/-- Modelled from the spec: upsert of the per-attempt diagnostic state,
keyed by (modulePath, version). -/
def upsertModuleVersionState (s : Store) (st : ModuleVersionState) : Store :=
  let rest := s.states.filter
    (fun s2 => !(s2.modulePath == st.modulePath && s2.version == st.version))
  { s with states := st :: rest }

/-- Module lookup, keyed by (modulePath, version). -/
def getModuleFromStore (s : Store) (mp v : String) : Option Module :=
  s.modules.find? (fun m => m.modulePath == mp && m.version == v)

/-- Whether a package at `pkgPath` is retrievable from the stored module
(mp, v): the stored unit set has a unit at that path carrying a package
payload. -/
def getPackageFromStore (s : Store) (mp v pkgPath : String) : Bool :=
  match getModuleFromStore s mp v with
  | some m => m.units.any (fun u => u.path == pkgPath && u.isPackage)
  | none => false

/-- The package import paths retrievable from the stored module (mp, v). -/
def storedPackagePaths (s : Store) (mp v : String) : List String :=
  match getModuleFromStore s mp v with
  | some m => (m.units.filter (fun u => u.isPackage)).map (fun u => u.path)
  | none => []

/-- Diagnostic state lookup, keyed by (modulePath, version). -/
def getModuleVersionState (s : Store) (mp v : String) : Option ModuleVersionState :=
  s.states.find? (fun st => st.modulePath == mp && st.version == v)

/-- Modelled from the spec: the worker's `FetchAndUpdateState` — run
`FetchModule`, commit the assembled module on success or degraded success
(replacing any prior state for the identity), delete on not-found, commit
nothing otherwise, and always record the attempt's status and go.mod path
in `module_version_states`. -/
def FetchAndUpdateState (env : FetchEnv) (modulePath requestedVersion : String)
    (s : Store) : Nat × Store :=
  let fr := (FetchModule env modulePath requestedVersion).1
  let s :=
    if fr.status == 200 || fr.status == hasIncompletePackagesCode then
      match fr.module? with
      | some m => upsertModule s m
      | none => s
    else if fr.status == 404 || fr.status == 410 then
      deleteModuleFromStore s modulePath requestedVersion
    else s
  let s := upsertModuleVersionState s
    { modulePath := modulePath, version := requestedVersion,
      status := fr.status, goModPath := fr.goModPath }
  (fr.status, s)

/-! ## The single-flight work queue

The queue implementation is not among the sources; it is modelled from the
spec (section 4.7) as a transition system: a submission for a key with a
run already in flight is coalesced (no new run starts); otherwise a run
starts, counting one content-extractor invocation; a finish delivers its
outcome to every caller waiting on the key. -/

/-- The observable queue state: keys with a run in flight, the log of runs
started (one entry per content-extractor invocation), the callers waiting
per key, and the outcomes delivered to callers. -/
structure QState where
  inFlight : List String
  startLog : List String
  waiting : List (Nat × String)
  delivered : List (Nat × String × Nat)
deriving DecidableEq, Repr

/-- Queue events: caller `c` submits (modulePath, version) key `k`, or the
in-flight run for `k` finishes with outcome `o`. -/
inductive QEvent where
  | submit (c : Nat) (k : String)
  | finish (k : String) (o : Nat)
deriving DecidableEq, Repr

/-- Modelled from the spec: one step of the single-flight queue.  A
duplicate submission while `k` is in flight only records the waiting
caller; a fresh submission starts a run.  A finish removes the run and
delivers the outcome to every caller waiting on `k`. -/
def qstep (s : QState) (e : QEvent) : QState :=
  match e with
  | .submit c k =>
    if k ∈ s.inFlight then { s with waiting := (c, k) :: s.waiting }
    else { s with inFlight := k :: s.inFlight, startLog := k :: s.startLog,
                  waiting := (c, k) :: s.waiting }
  | .finish k o =>
    if k ∈ s.inFlight then
      { s with inFlight := s.inFlight.erase k,
               waiting := s.waiting.filter (fun p => p.2 != k),
               delivered := (s.waiting.filter (fun p => p.2 == k)).map
                 (fun p => (p.1, k, o)) ++ s.delivered }
    else s

/-- Run the queue over a list of events from a state. -/
def qrun (s : QState) (es : List QEvent) : QState := es.foldl qstep s

/-- The empty queue. -/
def qinit : QState := { inFlight := [], startLog := [], waiting := [], delivered := [] }

/-! ## General lemmas about the pipeline -/

theorem fetchModuleFinish_deferK (fr : FetchResult) (mod : Module)
    (pvs : List PackageVersionState) (tr : Trace) :
    (fetchModuleFinish fr mod pvs tr).1.deferK = fr.deferK := by
  simp only [fetchModuleFinish]
  split <;> rfl

theorem fetchModuleFinish_trace (fr : FetchResult) (mod : Module)
    (pvs : List PackageVersionState) (tr : Trace) :
    (fetchModuleFinish fr mod pvs tr).2.2 = tr := by
  simp only [fetchModuleFinish]

theorem fetchModuleFinish_eq (fr : FetchResult) (mod : Module)
    (pvs : List PackageVersionState) (tr : Trace) :
    fetchModuleFinish fr mod pvs tr =
      (if pvs.any (fun s => s.status != 200)
       then { fr with module? := some mod, packageVersionStates := pvs, status := hasIncompletePackagesCode }
       else { fr with module? := some mod, packageVersionStates := pvs },
       none, tr) := by
  simp only [fetchModuleFinish, hasIncompletePackagesCode]

theorem fetchModuleRest_deferK (env : FetchEnv) (fr : FetchResult) (ct : Nat)
    (c : Bool) : (fetchModuleRest env fr ct c).1.deferK = fr.deferK := by
  unfold fetchModuleRest
  dsimp only
  split
  · rfl
  · split
    · rfl
    · split
      · rfl
      · split
        · split
          · rfl
          · exact fetchModuleFinish_deferK ..
        · exact fetchModuleFinish_deferK ..

theorem fetchModuleRest_consulted (env : FetchEnv) (fr : FetchResult) (ct : Nat)
    (c : Bool) : (fetchModuleRest env fr ct c).2.2.shedderConsulted = c := by
  unfold fetchModuleRest
  dsimp only
  split
  · rfl
  · split
    · rfl
    · split
      · rfl
      · split
        · split
          · rfl
          · rw [fetchModuleFinish_trace]
        · rw [fetchModuleFinish_trace]

/-- The fields of the running `FetchResult` that the post-admission part
of the pipeline never changes on the base value it threads through. -/
def preservesCore (fr fr' : FetchResult) : Prop :=
  fr'.status = fr.status ∧ fr'.deferK = fr.deferK ∧ fr'.module? = fr.module? ∧
  fr'.packageVersionStates = fr.packageVersionStates ∧
  fr'.modulePath = fr.modulePath

theorem fetchModuleRest_cases (env : FetchEnv) (fr : FetchResult) (ct : Nat)
    (c : Bool) :
    (∃ fr' e tr, fetchModuleRest env fr ct c = (fr', some e, tr) ∧
      preservesCore fr fr') ∨
    (∃ fr' mod pvs tr, fetchModuleRest env fr ct c = fetchModuleFinish fr' mod pvs tr ∧
      preservesCore fr fr') := by
  unfold fetchModuleRest
  dsimp only
  split
  · exact .inl ⟨_, _, _, rfl, rfl, rfl, rfl, rfl, rfl⟩
  · split
    · exact .inl ⟨_, _, _, rfl, rfl, rfl, rfl, rfl, rfl⟩
    · split
      · exact .inl ⟨_, _, _, rfl, rfl, rfl, rfl, rfl, rfl⟩
      · split
        · split
          · exact .inl ⟨_, _, _, rfl, rfl, rfl, rfl, rfl, rfl⟩
          · exact .inr ⟨_, _, _, _, rfl, rfl, rfl, rfl, rfl, rfl⟩
        · exact .inr ⟨_, _, _, _, rfl, rfl, rfl, rfl, rfl, rfl⟩

theorem fetchModuleRest_status_of_none (env : FetchEnv) (fr : FetchResult)
    (ct : Nat) (c : Bool)
    (h : (fetchModuleRest env fr ct c).2.1 = none) :
    (fetchModuleRest env fr ct c).1.status =
      if (fetchModuleRest env fr ct c).1.packageVersionStates.any
           (fun s => s.status != 200)
      then hasIncompletePackagesCode else fr.status := by
  rcases fetchModuleRest_cases env fr ct c with
    ⟨fr', e, tr, heq, _⟩ | ⟨fr', mod, pvs, tr, heq, hp⟩
  · rw [heq] at h; exact absurd h (by simp)
  · rw [heq, fetchModuleFinish_eq]
    rcases hp with ⟨hst, -, -, -, -⟩
    split
    · rename_i hcond
      simp [hcond]
    · rename_i hcond
      simp [hcond, hst]

/-- The admission controller lets the fetch proceed: either no shedder is
configured, or the size probe succeeded, the shedder declined to shed and
the size is within the hard cap. -/
def admissionPasses (env : FetchEnv) : Prop :=
  env.shedder = none ∨
  ∃ sh sz, env.shedder = some sh ∧ env.zipSizeResult = .ok sz ∧
    sh.shouldShed (goUInt64 sz) = false ∧ ¬sz > maxModuleZipSize

theorem fetchModule_reaches (env : FetchEnv) (fr : FetchResult)
    (info : VersionInfo) (h1 : env.infoResult = .ok info)
    (h2 : admissionPasses env) :
    ∃ fr2 c, fetchModule env fr = fetchModuleRest env fr2 info.time c ∧
      fr2.modulePath = fr.modulePath ∧ fr2.status = fr.status ∧
      fr2.module? = fr.module? ∧ fr2.resolvedVersion = info.version ∧
      fr2.packageVersionStates = fr.packageVersionStates := by
  rcases h2 with h2 | ⟨sh, sz, hsh, hsz, hshed, hcap⟩
  · refine ⟨{ fr with resolvedVersion := info.version }, false, ?_, rfl, rfl, rfl, rfl, rfl⟩
    simp only [fetchModule, h1, h2]
  · refine ⟨{ fr with resolvedVersion := info.version, deferK := .shedderRelease },
      true, ?_, rfl, rfl, rfl, rfl, rfl⟩
    simp only [fetchModule, h1, hsh, hsz, hshed, if_neg hcap]
    simp

/-! ## The deprecation-comment contract (claim C8) -/

/-- The text of an attached comment after stripping the leading `//` and
the surrounding whitespace, as computed inside `extractDeprecatedComment`. -/
def commentText (c : ModComment) : String := goTrimSpace (trimLeading c.token "//")

/-- The whitespace-trimmed text after the `Deprecated:` marker of a
comment whose text starts with the marker. -/
def deprecatedTextOf (c : ModComment) : String :=
  goTrimSpace (goDrop (commentText c) deprecatedMarker.length)

theorem findDeprecatedComment_cons (c : ModComment) (rest : List ModComment) :
    findDeprecatedComment (c :: rest) =
      if goHasPrefix (commentText c) deprecatedMarker then (true, deprecatedTextOf c)
      else findDeprecatedComment rest := by
  simp only [findDeprecatedComment, commentText, deprecatedTextOf]

theorem findDeprecatedComment_spec (l : List ModComment) :
    ((findDeprecatedComment l).1 = true ↔
      ∃ c ∈ l, goHasPrefix (commentText c) deprecatedMarker = true) ∧
    ((findDeprecatedComment l).1 = false → (findDeprecatedComment l).2 = "") ∧
    ((findDeprecatedComment l).1 = true →
      ∃ c ∈ l, goHasPrefix (commentText c) deprecatedMarker = true ∧
        (findDeprecatedComment l).2 = deprecatedTextOf c) := by
  induction l with
  | nil => simp [findDeprecatedComment]
  | cons c rest ih =>
    rw [findDeprecatedComment_cons]
    by_cases h : goHasPrefix (commentText c) deprecatedMarker = true
    · rw [if_pos h]
      refine ⟨?_, ?_, ?_⟩
      · constructor
        · intro _
          exact ⟨c, List.mem_cons_self c rest, h⟩
        · intro _
          rfl
      · intro hf
        exact absurd hf (by simp)
      · intro _
        exact ⟨c, List.mem_cons_self c rest, h, rfl⟩
    · rw [if_neg h]
      obtain ⟨ih1, ih2, ih3⟩ := ih
      refine ⟨?_, ih2, ?_⟩
      · rw [ih1]
        constructor
        · rintro ⟨d, hd, hdp⟩
          exact ⟨d, List.mem_cons_of_mem _ hd, hdp⟩
        · rintro ⟨d, hd, hdp⟩
          rcases List.mem_cons.mp hd with rfl | hd2
          · exact absurd hdp h
          · exact ⟨d, hd2, hdp⟩
      · intro ht
        obtain ⟨d, hd, hdp, hval⟩ := ih3 ht
        exact ⟨d, List.mem_cons_of_mem _ hd, hdp, hval⟩

/-- C8: for every parsed manifest, the parser reports the module as
deprecated if and only if some line comment attached to the module
declaration, after stripping the leading `//` and surrounding whitespace,
begins with the fixed marker `Deprecated:`; in that case the deprecation
comment is the whitespace-trimmed text after the marker, and otherwise the
result is `(false, "")`. -/
theorem deprecation_extraction_correct (mf : ModFile) :
    ((extractDeprecatedComment mf).1 = true ↔
      ∃ m, mf.module? = some m ∧ ∃ c ∈ m.before ++ m.suffix,
        goHasPrefix (commentText c) deprecatedMarker = true) ∧
    ((extractDeprecatedComment mf).1 = false → (extractDeprecatedComment mf).2 = "") ∧
    ((extractDeprecatedComment mf).1 = true →
      ∃ m, mf.module? = some m ∧ ∃ c ∈ m.before ++ m.suffix,
        goHasPrefix (commentText c) deprecatedMarker = true ∧
        (extractDeprecatedComment mf).2 = deprecatedTextOf c) := by
  cases hm : mf.module? with
  | none =>
    simp [extractDeprecatedComment, hm]
  | some m =>
    simp only [extractDeprecatedComment, hm]
    obtain ⟨f1, f2, f3⟩ := findDeprecatedComment_spec (m.before ++ m.suffix)
    refine ⟨?_, f2, ?_⟩
    · rw [f1]
      constructor
      · rintro ⟨c, hc, hp⟩
        exact ⟨m, rfl, c, hc, hp⟩
      · rintro ⟨m', hm', c, hc, hp⟩
        cases Option.some.inj hm'
        exact ⟨c, hc, hp⟩
    · intro ht
      obtain ⟨c, hc, hp, hval⟩ := f3 ht
      exact ⟨m, rfl, c, hc, hp, hval⟩

/-- A concrete manifest whose module declaration carries a deprecation
comment: `// Deprecated: use v2 instead`. -/
def mfDeprecatedExample : ModFile :=
  { module? := some { path := "m.com/mod",
                      before := [{ token := "// Deprecated: use v2 instead" }],
                      suffix := [] } }

theorem deprecation_extraction_correct_witness :
    (extractDeprecatedComment mfDeprecatedExample).1 = true ∧
    (extractDeprecatedComment mfDeprecatedExample).2 = "use v2 instead" :=
  ⟨((deprecation_extraction_correct mfDeprecatedExample).1).mpr
      ⟨{ path := "m.com/mod",
         before := [{ token := "// Deprecated: use v2 instead" }], suffix := [] },
        rfl,
        { token := "// Deprecated: use v2 instead" }, by decide, by decide⟩,
    by decide⟩

/-! ## Admission control and the result contract -/

theorem toStatus_pos (e : FetchErr) : 0 < toStatus e := by
  cases e <;> simp [toStatus]

theorem fetchModule_deferK_eq (env : FetchEnv) (fr : FetchResult) :
    (fetchModule env fr).1.deferK =
      (if (fetchModule env fr).2.2.shedderConsulted then DeferKind.shedderRelease
       else fr.deferK) := by
  cases hinfo : env.infoResult with
  | error e => simp [fetchModule, hinfo]
  | ok info =>
    cases hsh : env.shedder with
    | none => simp [fetchModule, hinfo, hsh, fetchModuleRest_consulted, fetchModuleRest_deferK]
    | some sh =>
      cases hsz : env.zipSizeResult with
      | error e => simp [fetchModule, hinfo, hsh, hsz]
      | ok sz =>
        simp only [fetchModule, hinfo, hsh, hsz]
        by_cases hshed : sh.shouldShed (goUInt64 sz) = true
        · simp [hshed]
        · simp only [Bool.not_eq_true] at hshed
          simp only [hshed, Bool.false_eq_true, if_false]
          by_cases hcap : sz > maxModuleZipSize
          · simp [hcap]
          · simp [hcap, fetchModuleRest_consulted, fetchModuleRest_deferK]

theorem fetchModule_consulted_inv (env : FetchEnv) (fr : FetchResult)
    (h : (fetchModule env fr).2.2.shedderConsulted = true) :
    ∃ sh sz, env.shedder = some sh ∧ env.zipSizeResult = .ok sz := by
  revert h
  cases hinfo : env.infoResult with
  | error e => simp [fetchModule, hinfo]
  | ok info =>
    cases hsh : env.shedder with
    | none => simp [fetchModule, hinfo, hsh, fetchModuleRest_consulted]
    | some sh =>
      cases hsz : env.zipSizeResult with
      | error e => simp [fetchModule, hinfo, hsh, hsz]
      | ok sz =>
        intro _
        exact ⟨sh, sz, rfl, rfl⟩

theorem FetchModule_deferK (env : FetchEnv) (mp rv : String) :
    (FetchModule env mp rv).1.deferK =
      (fetchModule env (initialFetchResult mp rv)).1.deferK := by
  simp only [FetchModule]
  split <;> split <;> rfl

theorem FetchModule_trace (env : FetchEnv) (mp rv : String) :
    (FetchModule env mp rv).2 = (fetchModule env (initialFetchResult mp rv)).2.2 := by
  simp only [FetchModule]

theorem FetchModule_error (env : FetchEnv) (mp rv : String) :
    (FetchModule env mp rv).1.error? =
      (fetchModule env (initialFetchResult mp rv)).2.1 := by
  simp only [FetchModule]
  split <;> split <;> simp_all

theorem toStatus_beq_zero (e : FetchErr) : (toStatus e == 0) = false := by
  cases e <;> rfl

theorem FetchModule_pvs (env : FetchEnv) (mp rv : String) :
    (FetchModule env mp rv).1.packageVersionStates =
      (fetchModule env (initialFetchResult mp rv)).1.packageVersionStates := by
  simp only [FetchModule]
  split <;> split <;> rfl

theorem fetchModule_none_status (env : FetchEnv) (fr : FetchResult)
    (hst : fr.status = 0) (h : (fetchModule env fr).2.1 = none) :
    (fetchModule env fr).1.status =
      (if (fetchModule env fr).1.packageVersionStates.any (fun s => s.status != 200)
       then hasIncompletePackagesCode else 0) := by
  revert h
  cases hinfo : env.infoResult with
  | error e => simp [fetchModule, hinfo]
  | ok info =>
    cases hsh : env.shedder with
    | none =>
      simp only [fetchModule, hinfo, hsh]
      intro h
      have hrest := fetchModuleRest_status_of_none env
        { fr with resolvedVersion := info.version } info.time false h
      simpa [hst] using hrest
    | some sh =>
      cases hsz : env.zipSizeResult with
      | error e => simp [fetchModule, hinfo, hsh, hsz]
      | ok sz =>
        simp only [fetchModule, hinfo, hsh, hsz]
        by_cases hshed : sh.shouldShed (goUInt64 sz) = true
        · simp [hshed]
        · simp only [Bool.not_eq_true] at hshed
          simp only [hshed, Bool.false_eq_true, if_false]
          by_cases hcap : sz > maxModuleZipSize
          · simp [hcap]
          · simp only [if_neg hcap]
            intro h
            have hrest := fetchModuleRest_status_of_none env
              { fr with resolvedVersion := info.version, deferK := .shedderRelease }
              info.time true h
            simpa [hst] using hrest

/-- C2: with a shedder whose answer for the estimated archive size is
`shouldShed = true`, the fetch returns the distinct `SheddingLoad` class,
the content extractor (archive download and `processZipFile`) is never
invoked, and the shedder's release function is invoked exactly once; and
in general, on every exit path of the whole fetch — success, failure or
shed — the release function handed back by a consulted shedder runs
exactly once. -/
theorem shedding_contract :
    (∀ (env : FetchEnv) (mp rv : String) (info : VersionInfo) (sh : Shedder) (sz : Int),
      env.infoResult = .ok info → env.shedder = some sh →
      env.zipSizeResult = .ok sz → sh.shouldShed (goUInt64 sz) = true →
      (FetchModule env mp rv).1.status = toStatus .sheddingLoad ∧
      (FetchModule env mp rv).1.error? = some .sheddingLoad ∧
      (FetchModule env mp rv).2.zipFetched = false ∧
      (FetchModule env mp rv).2.extractorCalls = 0 ∧
      releaseInvocations (FetchModule env mp rv).1 = 1) ∧
    (∀ (env : FetchEnv) (mp rv : String),
      (FetchModule env mp rv).2.shedderConsulted = true →
      releaseInvocations (FetchModule env mp rv).1 = 1) := by
  constructor
  · intro env mp rv info sh sz hinfo hsh hsz hshed
    simp [FetchModule, fetchModule, hinfo, hsh, hsz, hshed, releaseInvocations, toStatus]
  · intro env mp rv h
    rw [FetchModule_trace] at h
    have hd := fetchModule_deferK_eq env (initialFetchResult mp rv)
    rw [h] at hd
    simp only [if_true, if_pos] at hd
    simp [releaseInvocations, FetchModule_deferK, hd]

/-- A shedder that always sheds. -/
def shedAlways : Shedder := { shouldShed := fun _ => true }

/-- A shedder that never sheds. -/
def shedNever : Shedder := { shouldShed := fun _ => false }

/-- A fetch environment with an always-shedding shedder configured. -/
def envShedExample : FetchEnv :=
  { infoResult := .ok { version := "v1.0.0", time := 7 },
    shedder := some shedAlways,
    zipSizeResult := .ok 1000,
    proxyZipResult := .ok { files := [] },
    stdlibZipResult := .error .internalErr,
    modResult := .error .notFound,
    readmesOk := true,
    dirs := [],
    malformedZip := false,
    moduleRedistributable := true }

theorem shedding_contract_witness :
    (FetchModule envShedExample "m.com/a" "v1").1.status = toStatus .sheddingLoad ∧
    (FetchModule envShedExample "m.com/a" "v1").1.error? = some .sheddingLoad ∧
    (FetchModule envShedExample "m.com/a" "v1").2.zipFetched = false ∧
    (FetchModule envShedExample "m.com/a" "v1").2.extractorCalls = 0 ∧
    releaseInvocations (FetchModule envShedExample "m.com/a" "v1").1 = 1 :=
  shedding_contract.1 envShedExample "m.com/a" "v1"
    { version := "v1.0.0", time := 7 } shedAlways 1000 rfl rfl rfl rfl

/-! ## The size hard cap (claim C3) -/

/-- A package directory that extracts cleanly. -/
def fooDir : PkgDir := { path := "m.com/a/foo", files := [{ name := "foo.go", size := 100 }] }

/-- A package directory with a file over the per-file ceiling. -/
def barBigDir : PkgDir :=
  { path := "m.com/a/bar", files := [{ name := "bar.go", size := 40000000 }] }

/-- A go.mod source whose declared path matches `m.com/a` and parses. -/
def okGoModSrc : GoModSrc :=
  { declaredPath := "m.com/a",
    parsed := some { module? := some { path := "m.com/a", before := [], suffix := [] } } }

/-- A fetch environment in which every collaborator succeeds for the
module `m.com/a`. -/
def envOkExample : FetchEnv :=
  { infoResult := .ok { version := "v1.0.0", time := 7 },
    shedder := none,
    zipSizeResult := .ok 1000,
    proxyZipResult := .ok { files := ["m.com/a@v1.0.0/go.mod"] },
    stdlibZipResult := .error .internalErr,
    modResult := .ok okGoModSrc,
    readmesOk := true,
    dirs := [fooDir],
    malformedZip := false,
    moduleRedistributable := true }

/-- An always-shedding shedder with an archive size over the hard cap. -/
def envShedOversize : FetchEnv :=
  { envShedExample with zipSizeResult := .ok (maxModuleZipSize + 1) }

/-- No shedder configured, archive size over the hard cap, everything else
succeeding. -/
def envNoShedderOversize : FetchEnv :=
  { envOkExample with zipSizeResult := .ok (maxModuleZipSize + 1) }

theorem size_cap_counterexample :
    maxModuleZipSize + 1 > maxModuleZipSize ∧
    (FetchModule envShedOversize "m.com/a" "v1").1.error? = some .sheddingLoad ∧
    ¬(FetchModule envShedOversize "m.com/a" "v1").1.error? = some .moduleTooLarge ∧
    (FetchModule envNoShedderOversize "m.com/a" "v1").1.error? = none ∧
    (FetchModule envNoShedderOversize "m.com/a" "v1").1.status = 200 := by
  decide

/-- C3 (amended): the hard cap is enforced only by the admission block —
when a shedder is configured and its `shouldShed` answer for the size is
false, an archive size over `maxModuleZipSize` aborts the fetch with
`ModuleTooLarge`; when the shedder sheds, `SheddingLoad` takes precedence,
and with no shedder configured the size is never checked. -/
theorem size_cap_requires_admission_block (env : FetchEnv) (mp rv : String)
    (info : VersionInfo) (sh : Shedder) (sz : Int)
    (hinfo : env.infoResult = .ok info) (hsh : env.shedder = some sh)
    (hsz : env.zipSizeResult = .ok sz)
    (hshed : sh.shouldShed (goUInt64 sz) = false)
    (hcap : sz > maxModuleZipSize) :
    (FetchModule env mp rv).1.error? = some .moduleTooLarge ∧
    (FetchModule env mp rv).1.status = toStatus .moduleTooLarge ∧
    (FetchModule env mp rv).1.module? = none ∧
    (FetchModule env mp rv).2.extractorCalls = 0 := by
  simp [FetchModule, fetchModule, hinfo, hsh, hsz, hshed, hcap, toStatus,
    initialFetchResult]

/-- A never-shedding shedder with an archive size over the hard cap. -/
def envNoShedOversize : FetchEnv :=
  { envShedExample with
    shedder := some shedNever,
    zipSizeResult := .ok (maxModuleZipSize + 1) }

theorem size_cap_requires_admission_block_witness :
    (FetchModule envNoShedOversize "m.com/a" "v1").1.error? = some .moduleTooLarge ∧
    (FetchModule envNoShedOversize "m.com/a" "v1").1.status = toStatus .moduleTooLarge ∧
    (FetchModule envNoShedOversize "m.com/a" "v1").1.module? = none ∧
    (FetchModule envNoShedOversize "m.com/a" "v1").2.extractorCalls = 0 :=
  size_cap_requires_admission_block envNoShedOversize "m.com/a" "v1"
    { version := "v1.0.0", time := 7 } shedNever (maxModuleZipSize + 1)
    rfl rfl rfl rfl (by decide)

/-! ## The result contract (claim C10) -/

/-- A successful fetch of a module with one clean and one oversized
package: the result carries no error yet its status is the degraded code. -/
def envIncompleteExample : FetchEnv := { envOkExample with dirs := [fooDir, barBigDir] }

theorem status_parenthetical_counterexample :
    (FetchModule envIncompleteExample "m.com/a" "v1").1.error? = none ∧
    ¬(FetchModule envIncompleteExample "m.com/a" "v1").1.status = 200 := by
  decide

/-- C10 (amended): `FetchModule` always returns a result whose `Defer`
field is callable on every path — initialized to a no-op and replaced only
when a configured shedder was actually consulted — and whose status is
non-zero: `ToStatus` of the error when the error is non-nil, and otherwise
200 unless some package state is non-200, in which case the
incomplete-packages code. -/
theorem fetch_result_total_contract (env : FetchEnv) (mp rv : String) :
    (FetchModule env mp rv).1.status ≠ 0 ∧
    (env.shedder = none → (FetchModule env mp rv).1.deferK = .noopDefer) ∧
    ((FetchModule env mp rv).1.deferK = .shedderRelease →
      ∃ sh sz, env.shedder = some sh ∧ env.zipSizeResult = .ok sz) ∧
    (∀ e, (FetchModule env mp rv).1.error? = some e →
      (FetchModule env mp rv).1.status = toStatus e) ∧
    ((FetchModule env mp rv).1.error? = none →
      (FetchModule env mp rv).1.status =
        (if (FetchModule env mp rv).1.packageVersionStates.any (fun s => s.status != 200)
         then hasIncompletePackagesCode else 200)) := by
  have herr := FetchModule_error env mp rv
  have hdk := FetchModule_deferK env mp rv
  have hd := fetchModule_deferK_eq env (initialFetchResult mp rv)
  refine ⟨?_, ?_, ?_, ?_, ?_⟩
  · cases hr : (fetchModule env (initialFetchResult mp rv)).2.1 with
    | some e =>
      simp only [FetchModule, hr]
      simp [toStatus_beq_zero e, (toStatus_pos e).ne']
    | none =>
      have hs := fetchModule_none_status env (initialFetchResult mp rv) rfl hr
      simp only [FetchModule, hr]
      cases hany : (fetchModule env (initialFetchResult mp rv)).1.packageVersionStates.any
          (fun s => s.status != 200) with
      | true =>
        rw [hany, if_pos rfl] at hs
        simp [hs, hasIncompletePackagesCode, toStatus]
      | false =>
        rw [hany] at hs
        simp only [Bool.false_eq_true, if_false] at hs
        simp [hs]
  · intro hnone
    rw [hdk, hd]
    split
    · rename_i hcons
      obtain ⟨sh, sz, hsome, -⟩ := fetchModule_consulted_inv env (initialFetchResult mp rv) hcons
      rw [hnone] at hsome
      exact absurd hsome (by simp)
    · rfl
  · intro hrel
    rw [hdk, hd] at hrel
    by_cases hcons : (fetchModule env (initialFetchResult mp rv)).2.2.shedderConsulted = true
    · exact fetchModule_consulted_inv env (initialFetchResult mp rv) hcons
    · simp only [Bool.not_eq_true] at hcons
      rw [hcons] at hrel
      simp [initialFetchResult] at hrel
  · intro e he
    rw [herr] at he
    simp only [FetchModule, he]
    simp [toStatus_beq_zero e]
  · intro hnone
    rw [herr] at hnone
    have hs := fetchModule_none_status env (initialFetchResult mp rv) rfl hnone
    have hp := FetchModule_pvs env mp rv
    rw [hp]
    simp only [FetchModule, hnone]
    cases hany : (fetchModule env (initialFetchResult mp rv)).1.packageVersionStates.any
        (fun s => s.status != 200) with
    | true =>
      rw [hany, if_pos rfl] at hs
      simp [hs, hasIncompletePackagesCode, toStatus]
    | false =>
      rw [hany] at hs
      simp only [Bool.false_eq_true, if_false] at hs
      simp [hs]

theorem fetch_result_total_contract_witness :
    (FetchModule envOkExample "m.com/a" "v1").1.status ≠ 0 ∧
    (envOkExample.shedder = none →
      (FetchModule envOkExample "m.com/a" "v1").1.deferK = .noopDefer) ∧
    ((FetchModule envOkExample "m.com/a" "v1").1.deferK = .shedderRelease →
      ∃ sh sz, envOkExample.shedder = some sh ∧ envOkExample.zipSizeResult = .ok sz) ∧
    (∀ e, (FetchModule envOkExample "m.com/a" "v1").1.error? = some e →
      (FetchModule envOkExample "m.com/a" "v1").1.status = toStatus e) ∧
    ((FetchModule envOkExample "m.com/a" "v1").1.error? = none →
      (FetchModule envOkExample "m.com/a" "v1").1.status =
        (if (FetchModule envOkExample "m.com/a" "v1").1.packageVersionStates.any
              (fun s => s.status != 200)
         then hasIncompletePackagesCode else 200)) :=
  fetch_result_total_contract envOkExample "m.com/a" "v1"

/-! ## Status aggregation (claim C1) -/

theorem fetchModuleRest_all_ok (env : FetchEnv) (fr : FetchResult) (ct : Nat)
    (c : Bool) (zr : ZipArchive) (src : GoModSrc) (mfile : ModFile)
    (hstd : (fr.modulePath == stdlibModulePath) = false)
    (hzip : env.proxyZipResult = .ok zr)
    (hmod : env.modResult = .ok src)
    (hdp : src.declaredPath = fr.modulePath)
    (hne : (fr.modulePath == "") = false)
    (hparse : src.parsed = some mfile)
    (hreadmes : env.readmesOk = true)
    (hmal : env.malformedZip = false)
    (hall : ∀ d ∈ env.dirs, dirStatus d = 200)
    (hnonempty : env.dirs ≠ []) :
    (fetchModuleRest env fr ct c).2.1 = none ∧
    (fetchModuleRest env fr ct c).1.status = fr.status ∧
    (fetchModuleRest env fr ct c).1.module?.isSome = true := by
  have hany : env.dirs.any (fun d => dirStatus d != 200) = false := by
    simp only [List.any_eq_false]
    intro d hd
    simp [hall d hd]
  have hfilter : env.dirs.filter (fun d => dirStatus d == 200) = env.dirs := by
    apply List.filter_eq_self.mpr
    intro d hd
    simp [hall d hd]
  simp only [fetchModuleRest, hstd, Bool.false_eq_true, if_false, hzip,
    getGoModPath, hmod, hdp, hne, bne_self_eq_false, processZipFile, hreadmes,
    Bool.not_true, extractPackagesFromZip, hmal, hfilter, processGoModFile, hparse]
  simp only [List.isEmpty_eq_true, List.map_eq_nil_iff, hnonempty, if_false]
  rw [fetchModuleFinish_eq]
  simp only [List.any_map, Function.comp]
  have hnex : ¬∃ a ∈ env.dirs, ¬dirStatus a = 200 := by
    rintro ⟨a, ha, hne2⟩
    exact hne2 (hall a ha)
  simp [hnex]

theorem fetchModuleRest_mixed (env : FetchEnv) (fr : FetchResult) (ct : Nat)
    (c : Bool) (zr : ZipArchive) (src : GoModSrc) (mfile : ModFile)
    (hstd : (fr.modulePath == stdlibModulePath) = false)
    (hzip : env.proxyZipResult = .ok zr)
    (hmod : env.modResult = .ok src)
    (hdp : src.declaredPath = fr.modulePath)
    (hne : (fr.modulePath == "") = false)
    (hparse : src.parsed = some mfile)
    (hreadmes : env.readmesOk = true)
    (hmal : env.malformedZip = false)
    (hbad : ∃ d ∈ env.dirs, ¬dirStatus d = 200)
    (hgood : ∃ d ∈ env.dirs, dirStatus d = 200) :
    (fetchModuleRest env fr ct c).2.1 = none ∧
    (fetchModuleRest env fr ct c).1.status = hasIncompletePackagesCode ∧
    (fetchModuleRest env fr ct c).1.module?.isSome = true := by
  have hfne : env.dirs.filter (fun d => dirStatus d == 200) ≠ [] := by
    intro hc
    obtain ⟨d, hd, h200⟩ := hgood
    have := List.filter_eq_nil_iff.mp hc d hd
    simp [h200] at this
  simp only [fetchModuleRest, hstd, Bool.false_eq_true, if_false, hzip,
    getGoModPath, hmod, hdp, hne, bne_self_eq_false, processZipFile, hreadmes,
    Bool.not_true, extractPackagesFromZip, hmal, processGoModFile, hparse]
  simp only [List.isEmpty_eq_true, List.map_eq_nil_iff, hfne, if_false]
  rw [fetchModuleFinish_eq]
  simp only [List.any_map, Function.comp]
  have hex : ∃ a ∈ env.dirs, ¬dirStatus a = 200 := hbad
  simp [hex]

theorem fetchModuleRest_no_good (env : FetchEnv) (fr : FetchResult) (ct : Nat)
    (c : Bool) (zr : ZipArchive) (src : GoModSrc)
    (hstd : (fr.modulePath == stdlibModulePath) = false)
    (hzip : env.proxyZipResult = .ok zr)
    (hmod : env.modResult = .ok src)
    (hdp : src.declaredPath = fr.modulePath)
    (hne : (fr.modulePath == "") = false)
    (hreadmes : env.readmesOk = true)
    (hmal : env.malformedZip = false)
    (hnogood : ∀ d ∈ env.dirs, ¬dirStatus d = 200) :
    (fetchModuleRest env fr ct c).2.1 = some .badModule ∧
    (fetchModuleRest env fr ct c).1.module? = fr.module? := by
  have hfe : env.dirs.filter (fun d => dirStatus d == 200) = [] := by
    apply List.filter_eq_nil_iff.mpr
    intro d hd
    simp [hnogood d hd]
  simp only [fetchModuleRest, hstd, Bool.false_eq_true, if_false, hzip,
    getGoModPath, hmod, hdp, hne, bne_self_eq_false, processZipFile, hreadmes,
    Bool.not_true, extractPackagesFromZip, hmal, hfe]
  simp

/-- C1: for every fetch that reaches package extraction, the top-level
status of the `FetchResult` is computed from the per-package states: all
states 200 gives overall status 200 with an assembled module; at least one
non-200 state with at least one usable package gives the degraded-success
(has-incomplete-packages) code, still with an assembled module; and an
empty extracted package set fails hard with the bad-module class
(contains-no-packages escalated to `BadModule`), with no assembled module
returned. -/
theorem fetch_status_aggregation (env : FetchEnv) (mp rv : String)
    (info : VersionInfo) (zr : ZipArchive) (src : GoModSrc) (mfile : ModFile)
    (hinfo : env.infoResult = .ok info)
    (hadm : admissionPasses env)
    (hstd : (mp == stdlibModulePath) = false)
    (hzip : env.proxyZipResult = .ok zr)
    (hmod : env.modResult = .ok src)
    (hdp : src.declaredPath = mp)
    (hne : (mp == "") = false)
    (hparse : src.parsed = some mfile)
    (hreadmes : env.readmesOk = true)
    (hmal : env.malformedZip = false) :
    ((∀ d ∈ env.dirs, dirStatus d = 200) → env.dirs ≠ [] →
      (FetchModule env mp rv).1.status = 200 ∧
      (FetchModule env mp rv).1.error? = none ∧
      (FetchModule env mp rv).1.module?.isSome = true) ∧
    ((∃ d ∈ env.dirs, ¬dirStatus d = 200) → (∃ d ∈ env.dirs, dirStatus d = 200) →
      (FetchModule env mp rv).1.status = hasIncompletePackagesCode ∧
      (FetchModule env mp rv).1.error? = none ∧
      (FetchModule env mp rv).1.module?.isSome = true) ∧
    ((∀ d ∈ env.dirs, ¬dirStatus d = 200) →
      (FetchModule env mp rv).1.error? = some .badModule ∧
      (FetchModule env mp rv).1.status = toStatus .badModule ∧
      (FetchModule env mp rv).1.module? = none) := by
  obtain ⟨fr2, c, heq, hm, hs0, hmo, -, -⟩ :=
    fetchModule_reaches env (initialFetchResult mp rv) info hinfo hadm
  simp only [initialFetchResult] at hm hs0 hmo
  have hstd2 : (fr2.modulePath == stdlibModulePath) = false := by rw [hm]; exact hstd
  have hdp2 : src.declaredPath = fr2.modulePath := by rw [hm]; exact hdp
  have hne2 : (fr2.modulePath == "") = false := by rw [hm]; exact hne
  refine ⟨?_, ?_, ?_⟩
  · intro hall hnonempty
    obtain ⟨h1, h2, h3⟩ := fetchModuleRest_all_ok env fr2
      info.time c zr src mfile hstd2 hzip hmod hdp2 hne2 hparse hreadmes hmal hall hnonempty
    rw [hs0] at h2
    refine ⟨?_, ?_, ?_⟩ <;>
      simp [FetchModule, heq, h1, h2, h3]
  · intro hbad hgood
    obtain ⟨h1, h2, h3⟩ := fetchModuleRest_mixed env fr2
      info.time c zr src mfile hstd2 hzip hmod hdp2 hne2 hparse hreadmes hmal hbad hgood
    refine ⟨?_, ?_, ?_⟩ <;>
      simp [FetchModule, heq, h1, h2, h3, hasIncompletePackagesCode, toStatus]
  · intro hnogood
    obtain ⟨h1, h2⟩ := fetchModuleRest_no_good env fr2
      info.time c zr src hstd2 hzip hmod hdp2 hne2 hreadmes hmal hnogood
    rw [hmo] at h2
    refine ⟨?_, ?_, ?_⟩ <;>
      simp [FetchModule, heq, h1, h2, toStatus]

/-- A module whose only package directory has an oversized file. -/
def envNoUsableExample : FetchEnv := { envOkExample with dirs := [barBigDir] }

theorem fetch_status_aggregation_witness :
    ((FetchModule envIncompleteExample "m.com/a" "v1").1.status = hasIncompletePackagesCode ∧
     (FetchModule envIncompleteExample "m.com/a" "v1").1.error? = none ∧
     (FetchModule envIncompleteExample "m.com/a" "v1").1.module?.isSome = true) ∧
    ((FetchModule envNoUsableExample "m.com/a" "v1").1.error? = some .badModule ∧
     (FetchModule envNoUsableExample "m.com/a" "v1").1.status = toStatus .badModule ∧
     (FetchModule envNoUsableExample "m.com/a" "v1").1.module? = none) :=
  ⟨(fetch_status_aggregation envIncompleteExample "m.com/a" "v1"
      { version := "v1.0.0", time := 7 } { files := ["m.com/a@v1.0.0/go.mod"] }
      okGoModSrc { module? := some { path := "m.com/a", before := [], suffix := [] } }
      rfl (Or.inl rfl) rfl rfl rfl rfl rfl rfl rfl rfl).2.1
      ⟨barBigDir, by decide, by decide⟩ ⟨fooDir, by decide, by decide⟩,
   (fetch_status_aggregation envNoUsableExample "m.com/a" "v1"
      { version := "v1.0.0", time := 7 } { files := ["m.com/a@v1.0.0/go.mod"] }
      okGoModSrc { module? := some { path := "m.com/a", before := [], suffix := [] } }
      rfl (Or.inl rfl) rfl rfl rfl rfl rfl rfl rfl rfl).2.2
      (by decide)⟩

/-! ## Identity mismatch (claim C4) -/

theorem fetchModuleRest_mismatch (env : FetchEnv) (fr : FetchResult) (ct : Nat)
    (c : Bool) (zr : ZipArchive) (src : GoModSrc) (d : String)
    (hstd : (fr.modulePath == stdlibModulePath) = false)
    (hzip : env.proxyZipResult = .ok zr)
    (hmod : env.modResult = .ok src)
    (hd : src.declaredPath = d)
    (hne : (d == "") = false)
    (hdiff : (d != fr.modulePath) = true) :
    (fetchModuleRest env fr ct c).2.1 = some (.alternativeModule d) ∧
    (fetchModuleRest env fr ct c).1.goModPath = d ∧
    (fetchModuleRest env fr ct c).1.module? = fr.module? ∧
    (fetchModuleRest env fr ct c).1.packageVersionStates = fr.packageVersionStates := by
  simp only [fetchModuleRest, hstd, Bool.false_eq_true, if_false, hzip,
    getGoModPath, hmod, hd, hne, hdiff]
  simp

/-- C4: a manifest declaring a module path different from the requested
one fails the fetch with the distinct `AlternativeModule` error carrying
the declared path; the declared path is recorded on the outcome
(`FetchResult.GoModPath`) and persisted as diagnostic state in
`module_version_states`, and no package data is committed to the store for
the mismatched identity. -/
theorem alternative_module_contract (env : FetchEnv) (mp rv : String)
    (info : VersionInfo) (zr : ZipArchive) (src : GoModSrc) (d : String)
    (s0 : Store)
    (hinfo : env.infoResult = .ok info)
    (hadm : admissionPasses env)
    (hstd : (mp == stdlibModulePath) = false)
    (hzip : env.proxyZipResult = .ok zr)
    (hmod : env.modResult = .ok src)
    (hd : src.declaredPath = d)
    (hne : (d == "") = false)
    (hdiff : (d != mp) = true) :
    (FetchModule env mp rv).1.error? = some (.alternativeModule d) ∧
    (FetchModule env mp rv).1.goModPath = d ∧
    (FetchModule env mp rv).1.status = toStatus (.alternativeModule d) ∧
    (FetchModule env mp rv).1.module? = none ∧
    (FetchModule env mp rv).1.packageVersionStates = [] ∧
    (FetchAndUpdateState env mp rv s0).2.modules = s0.modules ∧
    getModuleVersionState (FetchAndUpdateState env mp rv s0).2 mp rv =
      some { modulePath := mp, version := rv,
             status := toStatus (.alternativeModule d), goModPath := d } := by
  obtain ⟨fr2, c, heq, hm, hs0, hmo, -, hpv⟩ :=
    fetchModule_reaches env (initialFetchResult mp rv) info hinfo hadm
  simp only [initialFetchResult] at hm hmo hpv
  have hstd2 : (fr2.modulePath == stdlibModulePath) = false := by rw [hm]; exact hstd
  have hdiff2 : (d != fr2.modulePath) = true := by rw [hm]; exact hdiff
  obtain ⟨h1, h2, h3, h4⟩ := fetchModuleRest_mismatch env fr2
    info.time c zr src d hstd2 hzip hmod hd hne hdiff2
  rw [hmo] at h3
  rw [hpv] at h4
  have eErr : (FetchModule env mp rv).1.error? = some (.alternativeModule d) := by
    simp [FetchModule, heq, h1, toStatus]
  have eStat : (FetchModule env mp rv).1.status = toStatus (.alternativeModule d) := by
    simp [FetchModule, heq, h1, toStatus]
  have eGoMod : (FetchModule env mp rv).1.goModPath = d := by
    simp [FetchModule, heq, h1, h2, toStatus]
  have eMod : (FetchModule env mp rv).1.module? = none := by
    simp [FetchModule, heq, h1, h3, toStatus]
  have ePvs : (FetchModule env mp rv).1.packageVersionStates = [] := by
    simp [FetchModule, heq, h1, h4, toStatus]
  refine ⟨eErr, eGoMod, eStat, eMod, ePvs, ?_, ?_⟩
  · simp only [FetchAndUpdateState, eStat, toStatus, hasIncompletePackagesCode]
    simp [upsertModuleVersionState, deleteModuleFromStore]
  · simp only [FetchAndUpdateState, eStat, eGoMod, toStatus, hasIncompletePackagesCode]
    simp only [getModuleVersionState, upsertModuleVersionState]
    simp [List.find?]

/-- The mismatching go.mod source: the proxy module is requested as
`m.com/a` but the manifest declares `other`. -/
def mismatchGoModSrc : GoModSrc :=
  { declaredPath := "other", parsed := some { module? := none } }

/-- A fetch of `m.com/a` whose go.mod declares module path `other`. -/
def envMismatchExample : FetchEnv :=
  { envOkExample with modResult := .ok mismatchGoModSrc }

/-- The empty store. -/
def emptyStore : Store := { modules := [], states := [] }

theorem alternative_module_contract_witness :
    (FetchModule envMismatchExample "m.com/a" "v1").1.error? =
      some (.alternativeModule "other") ∧
    (FetchModule envMismatchExample "m.com/a" "v1").1.goModPath = "other" ∧
    (FetchModule envMismatchExample "m.com/a" "v1").1.status =
      toStatus (.alternativeModule "other") ∧
    (FetchModule envMismatchExample "m.com/a" "v1").1.module? = none ∧
    (FetchModule envMismatchExample "m.com/a" "v1").1.packageVersionStates = [] ∧
    (FetchAndUpdateState envMismatchExample "m.com/a" "v1" emptyStore).2.modules =
      emptyStore.modules ∧
    getModuleVersionState
      (FetchAndUpdateState envMismatchExample "m.com/a" "v1" emptyStore).2 "m.com/a" "v1" =
      some { modulePath := "m.com/a", version := "v1",
             status := toStatus (.alternativeModule "other"), goModPath := "other" } :=
  alternative_module_contract envMismatchExample "m.com/a" "v1"
    { version := "v1.0.0", time := 7 } { files := ["m.com/a@v1.0.0/go.mod"] }
    mismatchGoModSrc "other" emptyStore rfl (Or.inl rfl) rfl rfl rfl rfl rfl rfl

/-! ## Unit path derivation (claim C5) -/

theorem unitPaths_mem_iff (mp : String) (pkgs : List GoPackage) (q : String) :
    q ∈ unitPaths mp pkgs ↔
      (q = mp ∨ ∃ p ∈ pkgs, (∃ n < (splitPath p.path).length,
        joinPath ((splitPath p.path).take (n + 1)) = q) ∧ unitFilter mp q = true) := by
  simp [unitPaths, candidateUnitPaths, List.mem_dedup, List.mem_cons,
    List.mem_flatMap, List.mem_filter, List.mem_map, List.mem_range]

/-- C5: the set of unit paths contains exactly the module root plus, for
each package import path, the joins of its component prefixes (the package
path itself and every ancestor directory) that pass the unit filter —
which for the standard library admits the package paths directly with no
module-path prefix join; together with the four concrete derivations of
`TestDirectoryPaths`: the no-package module keeps only its root, a root
package adds nothing, a multi-package module gains its ancestor
directories, and standard-library packages `cmd/go` yield exactly the
units `cmd`, `cmd/go` and `std`. -/
theorem unit_paths_spec :
    (∀ (mp : String) (pkgs : List GoPackage) (q : String),
      q ∈ unitPaths mp pkgs ↔
        (q = mp ∨ ∃ p ∈ pkgs, (∃ n < (splitPath p.path).length,
          joinPath ((splitPath p.path).take (n + 1)) = q) ∧ unitFilter mp q = true)) ∧
    unitPaths "github.com/empty/module" [] = ["github.com/empty/module"] ∧
    unitPaths "github.com/russross/blackfriday"
      [{ path := "github.com/russross/blackfriday" }] =
      ["github.com/russross/blackfriday"] ∧
    unitPaths "github.com/elastic/go-elasticsearch/v7"
      [{ path := "github.com/elastic/go-elasticsearch/v7/esapi" },
       { path := "github.com/elastic/go-elasticsearch/v7/estransport" },
       { path := "github.com/elastic/go-elasticsearch/v7/esutil" },
       { path := "github.com/elastic/go-elasticsearch/v7/internal/version" }] =
      ["github.com/elastic/go-elasticsearch/v7",
       "github.com/elastic/go-elasticsearch/v7/esapi",
       "github.com/elastic/go-elasticsearch/v7/estransport",
       "github.com/elastic/go-elasticsearch/v7/esutil",
       "github.com/elastic/go-elasticsearch/v7/internal",
       "github.com/elastic/go-elasticsearch/v7/internal/version"] ∧
    (unitPaths stdlibModulePath [{ path := "cmd/go" }]).Perm ["cmd", "cmd/go", "std"] := by
  exact ⟨unitPaths_mem_iff, by decide, by decide, by decide, by decide⟩

/-! ## Packages are their own units -/

theorem splitComps_ne_nil (cs : List Char) : splitComps cs ≠ [] := by
  cases cs with
  | nil => simp [splitComps]
  | cons c rest =>
    simp only [splitComps]
    split
    · simp
    · split <;> simp

theorem joinComps_splitComps (cs : List Char) : joinComps (splitComps cs) = cs := by
  induction cs with
  | nil => rfl
  | cons c rest ih =>
    simp only [splitComps]
    by_cases h : c = '/'
    · subst h
      rw [if_pos rfl]
      cases hs : splitComps rest with
      | nil => exact absurd hs (splitComps_ne_nil rest)
      | cons h2 t2 =>
        rw [hs] at ih
        simp only [joinComps, List.nil_append]
        rw [ih]
    · rw [if_neg h]
      cases hs : splitComps rest with
      | nil => exact absurd hs (splitComps_ne_nil rest)
      | cons h2 t2 =>
        rw [hs] at ih
        cases t2 with
        | nil =>
          simp only [joinComps] at ih ⊢
          rw [ih]
        | cons h3 t3 =>
          simp only [joinComps, List.cons_append] at ih ⊢
          rw [ih]

theorem joinPath_splitPath (p : String) : joinPath (splitPath p) = p := by
  cases p with
  | mk data => simp [joinPath, splitPath, joinComps_splitComps]

theorem splitPath_length_pos (p : String) : 0 < (splitPath p).length :=
  List.length_pos.mpr (splitComps_ne_nil p.data)

theorem self_mem_unitPaths (mp : String) (pkgs : List GoPackage) (p : GoPackage)
    (hp : p ∈ pkgs) (hstd : (mp == stdlibModulePath) = false)
    (hlong : mp.length < p.path.length) :
    p.path ∈ unitPaths mp pkgs := by
  rw [unitPaths_mem_iff]
  right
  refine ⟨p, hp, ⟨(splitPath p.path).length - 1, ?_, ?_⟩, ?_⟩
  · exact Nat.sub_lt (splitPath_length_pos p.path) Nat.one_pos
  · rw [Nat.sub_add_cancel (splitPath_length_pos p.path), List.take_length]
    exact joinPath_splitPath p.path
  · simp [unitFilter, hstd]
    exact hlong

theorem moduleUnits_package_mem (mp v : String) (pkgs : List GoPackage) (x : String)
    (hstd : (mp == stdlibModulePath) = false)
    (hlong : ∀ p ∈ pkgs, mp.length < p.path.length) :
    ((moduleUnits mp v pkgs).any (fun u => u.path == x && u.isPackage) = true ↔
      x ∈ pkgs.map GoPackage.path) := by
  constructor
  · intro h
    simp only [moduleUnits] at h
    obtain ⟨u, hu, hpred⟩ := List.any_eq_true.mp h
    obtain ⟨q, hq, rfl⟩ := List.mem_map.mp hu
    simp only [Bool.and_eq_true, beq_iff_eq, List.any_eq_true] at hpred
    obtain ⟨hqx, p, hp, hpq⟩ := hpred
    subst hqx
    exact List.mem_map.mpr ⟨p, hp, hpq⟩
  · intro hx
    obtain ⟨p, hp, rfl⟩ := List.mem_map.mp hx
    simp only [moduleUnits]
    apply List.any_eq_true.mpr
    refine ⟨{ path := p.path, isPackage := pkgs.any fun p2 => p2.path == p.path }, ?_, ?_⟩
    · exact List.mem_map.mpr ⟨p.path, self_mem_unitPaths mp pkgs p hp hstd (hlong p hp), rfl⟩
    · simp only [Bool.and_eq_true, beq_iff_eq, List.any_eq_true]
      refine ⟨?_, p, hp, ?_⟩ <;> simp

theorem fetchModuleRest_mixed_full (env : FetchEnv) (fr : FetchResult) (ct : Nat)
    (c : Bool) (zr : ZipArchive) (src : GoModSrc) (mfile : ModFile)
    (hstd : (fr.modulePath == stdlibModulePath) = false)
    (hzip : env.proxyZipResult = .ok zr)
    (hmod : env.modResult = .ok src)
    (hdp : src.declaredPath = fr.modulePath)
    (hne : (fr.modulePath == "") = false)
    (hparse : src.parsed = some mfile)
    (hreadmes : env.readmesOk = true)
    (hmal : env.malformedZip = false)
    (hbad : ∃ d ∈ env.dirs, ¬dirStatus d = 200)
    (hgood : ∃ d ∈ env.dirs, dirStatus d = 200) :
    (fetchModuleRest env fr ct c).2.1 = none ∧
    (fetchModuleRest env fr ct c).1.status = hasIncompletePackagesCode ∧
    (fetchModuleRest env fr ct c).1.packageVersionStates =
      env.dirs.map (fun d =>
        { packagePath := d.path, modulePath := fr.modulePath,
          version := fr.resolvedVersion, status := dirStatus d }) ∧
    (fetchModuleRest env fr ct c).1.module?.map
        (fun m => (m.modulePath, m.version, m.units)) =
      some (fr.modulePath, fr.resolvedVersion,
        moduleUnits fr.modulePath fr.resolvedVersion
          ((env.dirs.filter (fun d => dirStatus d == 200)).map
            (fun d => ({ path := d.path } : GoPackage)))) := by
  have hfne : env.dirs.filter (fun d => dirStatus d == 200) ≠ [] := by
    intro hc
    obtain ⟨d, hd, h200⟩ := hgood
    have := List.filter_eq_nil_iff.mp hc d hd
    simp [h200] at this
  simp only [fetchModuleRest, hstd, Bool.false_eq_true, if_false, hzip,
    getGoModPath, hmod, hdp, hne, bne_self_eq_false, processZipFile, hreadmes,
    Bool.not_true, extractPackagesFromZip, hmal, processGoModFile, hparse]
  simp only [List.isEmpty_eq_true, List.map_eq_nil_iff, hfne, if_false]
  rw [fetchModuleFinish_eq]
  simp only [List.any_map, Function.comp]
  have hex : ∃ a ∈ env.dirs, ¬dirStatus a = 200 := hbad
  simp [hex]

theorem FetchModule_module (env : FetchEnv) (mp rv : String) :
    (FetchModule env mp rv).1.module? =
      (fetchModule env (initialFetchResult mp rv)).1.module? := by
  simp only [FetchModule]
  split <;> split <;> rfl

/-- C6: a module with several packages of which exactly one contains a
file over the per-file ceiling is committed in degraded form: the overall
code is the has-incomplete-packages code, the oversized package's import
path carries a 600 `PackageVersionState`, and exactly the other packages —
no more, no fewer — are retrievable from the store afterward. -/
theorem skip_incomplete_package (env : FetchEnv) (mp rv : String)
    (info : VersionInfo) (zr : ZipArchive) (src : GoModSrc) (mfile : ModFile)
    (s0 : Store) (good : List PkgDir) (bad : PkgDir)
    (hinfo : env.infoResult = .ok info)
    (hadm : admissionPasses env)
    (hstd : (mp == stdlibModulePath) = false)
    (hzip : env.proxyZipResult = .ok zr)
    (hmod : env.modResult = .ok src)
    (hdp : src.declaredPath = mp)
    (hne : (mp == "") = false)
    (hparse : src.parsed = some mfile)
    (hreadmes : env.readmesOk = true)
    (hmal : env.malformedZip = false)
    (hdirs : env.dirs = good ++ [bad])
    (hgoodall : ∀ d ∈ good, dirStatus d = 200)
    (hbad600 : dirStatus bad = 600)
    (hgne : good ≠ [])
    (hlong : ∀ d ∈ good, mp.length < d.path.length) :
    (FetchAndUpdateState env mp rv s0).1 = hasIncompletePackagesCode ∧
    (∃ st ∈ (FetchModule env mp rv).1.packageVersionStates,
      st.packagePath = bad.path ∧ st.status = 600) ∧
    (∀ x, getPackageFromStore (FetchAndUpdateState env mp rv s0).2 mp info.version x = true ↔
      x ∈ good.map PkgDir.path) := by
  obtain ⟨fr2, c, heq, hm, hs0, hmo, hrv, hpv⟩ :=
    fetchModule_reaches env (initialFetchResult mp rv) info hinfo hadm
  simp only [initialFetchResult] at hm hs0 hmo hpv
  have hstd2 : (fr2.modulePath == stdlibModulePath) = false := by rw [hm]; exact hstd
  have hdp2 : src.declaredPath = fr2.modulePath := by rw [hm]; exact hdp
  have hne2 : (fr2.modulePath == "") = false := by rw [hm]; exact hne
  have hbadex : ∃ d ∈ env.dirs, ¬dirStatus d = 200 :=
    ⟨bad, by simp [hdirs], by simp [hbad600]⟩
  have hgoodex : ∃ d ∈ env.dirs, dirStatus d = 200 := by
    obtain ⟨d, hd⟩ := List.exists_mem_of_ne_nil good hgne
    exact ⟨d, by simp [hdirs, hd], hgoodall d hd⟩
  obtain ⟨h1, h2, h3, h4⟩ := fetchModuleRest_mixed_full env fr2 info.time c zr src
    mfile hstd2 hzip hmod hdp2 hne2 hparse hreadmes hmal hbadex hgoodex
  have hfilter : env.dirs.filter (fun d => dirStatus d == 200) = good := by
    rw [hdirs, List.filter_append]
    have hg : good.filter (fun d => dirStatus d == 200) = good :=
      List.filter_eq_self.mpr (fun d hd => by simp [hgoodall d hd])
    have hb : [bad].filter (fun d => dirStatus d == 200) = [] := by
      simp [List.filter, hbad600]
    rw [hg, hb, List.append_nil]
  have eStat : (FetchModule env mp rv).1.status = hasIncompletePackagesCode := by
    simp [FetchModule, heq, h1, h2, hasIncompletePackagesCode, toStatus]
  have ePvs : (FetchModule env mp rv).1.packageVersionStates =
      env.dirs.map (fun d =>
        { packagePath := d.path, modulePath := fr2.modulePath,
          version := fr2.resolvedVersion, status := dirStatus d }) := by
    rw [FetchModule_pvs, heq]
    exact h3
  have eMod : (FetchModule env mp rv).1.module?.map
      (fun m => (m.modulePath, m.version, m.units)) =
      some (fr2.modulePath, fr2.resolvedVersion,
        moduleUnits fr2.modulePath fr2.resolvedVersion
          (good.map (fun d => ({ path := d.path } : GoPackage)))) := by
    rw [FetchModule_module, heq, ← hfilter]
    exact h4
  obtain ⟨m, hmod?, hmfields⟩ :
      ∃ m, (FetchModule env mp rv).1.module? = some m ∧
        (m.modulePath, m.version, m.units) =
          (fr2.modulePath, fr2.resolvedVersion,
            moduleUnits fr2.modulePath fr2.resolvedVersion
              (good.map (fun d => ({ path := d.path } : GoPackage)))) := by
    cases hmm : (FetchModule env mp rv).1.module? with
    | none => rw [hmm] at eMod; simp at eMod
    | some m =>
      rw [hmm] at eMod
      exact ⟨m, rfl, by simpa using eMod⟩
  simp only [Prod.mk.injEq] at hmfields
  obtain ⟨hmmp, hmv, hmunits⟩ := hmfields
  have hlong2 : ∀ p ∈ good.map (fun d => ({ path := d.path } : GoPackage)),
      mp.length < p.path.length := by
    intro p hp
    obtain ⟨d, hd, rfl⟩ := List.mem_map.mp hp
    exact hlong d hd
  refine ⟨?_, ?_, ?_⟩
  · simp only [FetchAndUpdateState]
    exact eStat
  · rw [ePvs]
    refine ⟨_, List.mem_map.mpr ⟨bad, by simp [hdirs], rfl⟩, rfl, ?_⟩
    simp [hbad600]
  · intro x
    have hcond : ((FetchModule env mp rv).1.status == 200 ||
        (FetchModule env mp rv).1.status == hasIncompletePackagesCode) = true := by
      rw [eStat]
      simp [hasIncompletePackagesCode, toStatus]
    simp only [FetchAndUpdateState, hcond, if_true, hmod?]
    simp only [getPackageFromStore, getModuleFromStore, upsertModuleVersionState,
      upsertModule, List.find?]
    have hkey : (m.modulePath == mp && m.version == info.version) = true := by
      rw [hmmp, hmv, hm, hrv]
      simp
    rw [hkey]
    simp only [hmunits, hm, hrv]
    rw [moduleUnits_package_mem mp info.version
      (good.map (fun d => ({ path := d.path } : GoPackage))) x hstd hlong2]
    simp [List.map_map, Function.comp]

theorem skip_incomplete_package_witness :
    (FetchAndUpdateState envIncompleteExample "m.com/a" "v1" emptyStore).1 =
      hasIncompletePackagesCode ∧
    (∃ st ∈ (FetchModule envIncompleteExample "m.com/a" "v1").1.packageVersionStates,
      st.packagePath = barBigDir.path ∧ st.status = 600) ∧
    (∀ x, getPackageFromStore
        (FetchAndUpdateState envIncompleteExample "m.com/a" "v1" emptyStore).2
        "m.com/a" "v1.0.0" x = true ↔
      x ∈ [fooDir].map PkgDir.path) :=
  skip_incomplete_package envIncompleteExample "m.com/a" "v1"
    { version := "v1.0.0", time := 7 } { files := ["m.com/a@v1.0.0/go.mod"] }
    okGoModSrc { module? := some { path := "m.com/a", before := [], suffix := [] } }
    emptyStore [fooDir] barBigDir
    rfl (Or.inl rfl) rfl rfl rfl rfl rfl rfl rfl rfl rfl
    (by decide) (by decide) (by decide) (by decide)

/-! ## Re-fetch replaces prior state (claim C7) -/

/-- C7: fetching a module-version successfully after a prior successful
fetch of the same identity structurally replaces all previously persisted
state for that identity: the stored module record is exactly the second
run's, every retrievable per-package and per-directory fact is determined
solely by the second run's unit set, and the diagnostic state is the
second run's — regardless of what the first run (or any earlier state)
had stored. -/
theorem refetch_replaces (env1 env2 : FetchEnv) (mp v : String) (s0 : Store)
    (m1 m2 : Module)
    (h1 : (FetchModule env1 mp v).1.module? = some m1)
    (h1s : (FetchModule env1 mp v).1.status = 200 ∨
      (FetchModule env1 mp v).1.status = hasIncompletePackagesCode)
    (h2 : (FetchModule env2 mp v).1.module? = some m2)
    (h2s : (FetchModule env2 mp v).1.status = 200 ∨
      (FetchModule env2 mp v).1.status = hasIncompletePackagesCode)
    (hm2p : m2.modulePath = mp) (hm2v : m2.version = v) :
    getModuleFromStore
      (FetchAndUpdateState env2 mp v (FetchAndUpdateState env1 mp v s0).2).2 mp v =
      some m2 ∧
    (∀ x, getPackageFromStore
        (FetchAndUpdateState env2 mp v (FetchAndUpdateState env1 mp v s0).2).2 mp v x =
      m2.units.any (fun u => u.path == x && u.isPackage)) ∧
    getModuleVersionState
      (FetchAndUpdateState env2 mp v (FetchAndUpdateState env1 mp v s0).2).2 mp v =
      some { modulePath := mp, version := v,
             status := (FetchModule env2 mp v).1.status,
             goModPath := (FetchModule env2 mp v).1.goModPath } := by
  have hcond2 : ((FetchModule env2 mp v).1.status == 200 ||
      (FetchModule env2 mp v).1.status == hasIncompletePackagesCode) = true := by
    rcases h2s with h | h <;> simp [h, hasIncompletePackagesCode, toStatus]
  have hkey : (m2.modulePath == mp && m2.version == v) = true := by
    rw [hm2p, hm2v]
    simp
  refine ⟨?_, ?_, ?_⟩
  · simp only [FetchAndUpdateState, hcond2, if_true, h2]
    simp only [getModuleFromStore, upsertModuleVersionState, upsertModule, List.find?]
    rw [hkey]
  · intro x
    simp only [FetchAndUpdateState, hcond2, if_true, h2]
    simp only [getPackageFromStore, getModuleFromStore, upsertModuleVersionState,
      upsertModule, List.find?]
    rw [hkey]
  · simp only [FetchAndUpdateState, hcond2, if_true, h2]
    simp only [getModuleVersionState, upsertModuleVersionState, List.find?]
    simp

/-- A second proxy snapshot of `m.com/a` that also contains a clean `bar`
package (the re-fetch scenario of `TestReFetch`). -/
def barDir : PkgDir := { path := "m.com/a/bar", files := [{ name := "bar.go", size := 50 }] }

/-- The environment of the second fetch: `foo` and `bar` both extract. -/
def envFooBar : FetchEnv := { envOkExample with dirs := [fooDir, barDir] }

/-- The module assembled by the first fetch (packages: `foo`). -/
def fooModule : Module :=
  { modulePath := "m.com/a", version := "v1.0.0", commitTime := 7,
    isRedistributable := true, hasGoMod := true, deprecated := false,
    deprecationComment := "",
    units := [{ path := "m.com/a", isPackage := false },
              { path := "m.com/a/foo", isPackage := true }] }

/-- The module assembled by the second fetch (packages: `foo`, `bar`). -/
def fooBarModule : Module :=
  { modulePath := "m.com/a", version := "v1.0.0", commitTime := 7,
    isRedistributable := true, hasGoMod := true, deprecated := false,
    deprecationComment := "",
    units := [{ path := "m.com/a", isPackage := false },
              { path := "m.com/a/foo", isPackage := true },
              { path := "m.com/a/bar", isPackage := true }] }

theorem refetch_replaces_witness :
    getModuleFromStore
      (FetchAndUpdateState envFooBar "m.com/a" "v1.0.0"
        (FetchAndUpdateState envOkExample "m.com/a" "v1.0.0" emptyStore).2).2
      "m.com/a" "v1.0.0" = some fooBarModule ∧
    (∀ x, getPackageFromStore
        (FetchAndUpdateState envFooBar "m.com/a" "v1.0.0"
          (FetchAndUpdateState envOkExample "m.com/a" "v1.0.0" emptyStore).2).2
        "m.com/a" "v1.0.0" x =
      fooBarModule.units.any (fun u => u.path == x && u.isPackage)) ∧
    getModuleVersionState
      (FetchAndUpdateState envFooBar "m.com/a" "v1.0.0"
        (FetchAndUpdateState envOkExample "m.com/a" "v1.0.0" emptyStore).2).2
      "m.com/a" "v1.0.0" =
      some { modulePath := "m.com/a", version := "v1.0.0",
             status := (FetchModule envFooBar "m.com/a" "v1.0.0").1.status,
             goModPath := (FetchModule envFooBar "m.com/a" "v1.0.0").1.goModPath } :=
  refetch_replaces envOkExample envFooBar "m.com/a" "v1.0.0" emptyStore
    fooModule fooBarModule (by decide) (Or.inl (by decide)) (by decide)
    (Or.inl (by decide)) rfl rfl

/-! ## Single-flight coalescing (claim C9) -/

/-- C9: the single-flight queue never has two concurrent runs for the same
key — the in-flight set stays duplicate-free under every event — and two
concurrent submissions of the identical (modulePath, version) key start
exactly one content-extractor run (the second is coalesced while the first
is in flight) with both callers observing the one run's outcome. -/
theorem single_flight_coalesces :
    (∀ (s : QState) (e : QEvent), s.inFlight.Nodup → (qstep s e).inFlight.Nodup) ∧
    (∀ (c1 c2 : Nat) (k : String) (o : Nat),
      (qrun qinit [.submit c1 k, .submit c2 k]).startLog.count k = 1 ∧
      (qrun qinit [.submit c1 k, .submit c2 k]).inFlight = [k] ∧
      (qrun qinit [.submit c1 k, .submit c2 k, .finish k o]).delivered =
        [(c2, k, o), (c1, k, o)]) := by
  constructor
  · intro s e hnd
    cases e with
    | submit c k =>
      simp only [qstep]
      split
      · exact hnd
      · rename_i hk
        exact List.nodup_cons.mpr ⟨hk, hnd⟩
    | finish k o =>
      simp only [qstep]
      split
      · exact hnd.erase k
      · exact hnd
  · intro c1 c2 k o
    refine ⟨?_, ?_, ?_⟩ <;>
      simp [qrun, qinit, qstep, List.foldl]

theorem single_flight_coalesces_witness :
    (qstep qinit (.submit 1 "m.com/a@v1.0.0")).inFlight.Nodup ∧
    (qrun qinit [.submit 1 "m.com/a@v1.0.0", .submit 2 "m.com/a@v1.0.0"]).startLog.count
      "m.com/a@v1.0.0" = 1 ∧
    (qrun qinit [.submit 1 "m.com/a@v1.0.0", .submit 2 "m.com/a@v1.0.0",
        .finish "m.com/a@v1.0.0" 200]).delivered =
      [(2, "m.com/a@v1.0.0", 200), (1, "m.com/a@v1.0.0", 200)] :=
  ⟨single_flight_coalesces.1 qinit (.submit 1 "m.com/a@v1.0.0") (by decide),
   (single_flight_coalesces.2 1 2 "m.com/a@v1.0.0" 200).1,
   (single_flight_coalesces.2 1 2 "m.com/a@v1.0.0" 200).2.2⟩

end Pkgsite